import Mathlib

/-!
Verification of the character-level RNN notebook's implementer-owned logic:
the alphabet construction (cell “encode the text”), the autoregressive
sampler (`predict` / `sample`), and the batch windower (`get_batches`).

The network itself (LSTM forward pass, softmax) is an external capability:
following the notebook's use, a `Net` is an opaque map from a vocabulary
index and a recurrent state to a probability distribution over the
vocabulary (the post-softmax output the code calls `p`) and a new state.
Probabilities are modelled as rationals.  The numpy / torch library calls
the sampler makes (`Tensor.topk`, `ndarray.squeeze`, `np.random.choice`)
are embedded with their documented shape and validation semantics, since
the claims hinge on them.
-/

namespace CharRNN

/-- Python-level failure outcomes the embedded code can surface.
`invalidTopK` and `emptyPrime` model the spec's named error classes
(no code in the notebook raises them); `insufficientData` models the
spec's `InsufficientDataError` for the batch windower. -/
inductive PyError where
  | keyError                  : PyError  -- dict lookup miss (char2int / int2char)
  | typeErrorNoneNotIterable  : PyError  -- tuple([each.data for each in h]) with h = None
  | torchTopkOutOfRange       : PyError  -- torch Tensor.topk: k out of range / negative
  | choiceEmptyA              : PyError  -- np.random.choice: 'a' cannot be empty
  | choiceANotOneDimensional  : PyError  -- np.random.choice: 'a' must be 1-dimensional
  | choicePopNonPositive      : PyError  -- np.random.choice: 'a' must be greater than 0
  | choicePNotOneDimensional  : PyError  -- np.random.choice: 'p' is not a 1-d sized object
  | choiceSizeMismatch        : PyError  -- np.random.choice: 'a' and 'p' must have same size
  | choiceNegativeP           : PyError  -- np.random.choice: probabilities not non-negative
  | choicePSumNotOne          : PyError  -- np.random.choice: probabilities do not sum to 1
  | unboundLocalChar          : PyError  -- sample: local 'char' referenced before assignment
  | invalidTopK               : PyError  -- spec's InvalidTopKError (never raised by the code)
  | emptyPrime                : PyError  -- spec's EmptyPrimeError (never raised by the code)
  | insufficientData          : PyError  -- spec's InsufficientDataError (get_batches)
deriving DecidableEq, Repr

/-- A numpy array / torch tensor, reduced to what the sampler observes:
its shape and its flattened contents. -/
structure NPVec (α : Type) where
  shape : List Nat
  data : List α
deriving DecidableEq, Repr

/-- `ndarray.squeeze()`: drop every axis of size 1.  On the sampler's
`(1, k)` tensors this yields a 1-d vector for `k ≥ 2`, a 0-d scalar for
`k = 1`, and a 1-d empty vector for `k = 0`. -/
def NPVec.squeeze {α : Type} (v : NPVec α) : NPVec α :=
  ⟨v.shape.filter (fun n => n ≠ 1), v.data⟩

/-- Inverse-CDF index selection: the least `i` with
`r < w[0] + ⋯ + w[i]`, clamped to the last index.  This is the draw
`np.random.choice` performs (searchsorted on the cumulative sum of the
weights against one uniform variate `r`). -/
def choiceIdx : List ℚ → ℚ → Nat
  | [], _ => 0
  | x :: xs, r =>
    if r < x then 0
    else
      match xs with
      | [] => 0
      | _ :: _ => choiceIdx xs (r - x) + 1

/-- `np.random.choice(a, p=w)` for a single draw, with numpy's input
validation in the order the library performs it: a 0-d `a` is read as an
integer population size (`operator.index(a.item())`) and rejected when
non-positive; a 1-d empty `a` is rejected; higher dimensions are
rejected; then the weight vector must be a sized 1-d object, match `a`'s
size, be non-negative and sum to 1.  `r` is the uniform variate in
`[0, 1)` driving the draw. -/
def np_random_choice (a : NPVec Nat) (w : NPVec ℚ) (r : ℚ) : Except PyError Nat :=
  if a.shape.length = 0 then
    -- numpy reads a 0-d integer array as a population size
    let pop := a.data.headD 0
    if pop = 0 then .error .choicePopNonPositive
    else if w.shape.length ≠ 1 then .error .choicePNotOneDimensional
    else if w.data.length ≠ pop then .error .choiceSizeMismatch
    else if w.data.any (fun q => q < 0) then .error .choiceNegativeP
    else if w.data.sum ≠ 1 then .error .choicePSumNotOne
    else .ok ((List.range pop).getD (choiceIdx w.data r) 0)
  else if a.shape.length = 1 then
    if a.data.length = 0 then .error .choiceEmptyA
    else if w.shape.length ≠ 1 then .error .choicePNotOneDimensional
    else if w.data.length ≠ a.data.length then .error .choiceSizeMismatch
    else if w.data.any (fun q => q < 0) then .error .choiceNegativeP
    else if w.data.sum ≠ 1 then .error .choicePSumNotOne
    else .ok (a.data.getD (choiceIdx w.data r) 0)
  else .error .choiceANotOneDimensional

/-- Indices `0, …, p.length - 1` sorted by descending probability
(stable).  `torch.Tensor.topk` returns its `k` largest entries sorted in
descending order; this is the full descending order it truncates. -/
def argsortDesc (p : List ℚ) : List Nat :=
  List.insertionSort (fun i j => p.getD j 0 ≤ p.getD i 0) (List.range p.length)

/-- `torch.Tensor.topk(k)` on a vector of length `V` (the last axis of
the sampler's `(1, V)` tensor): the `k` largest values in descending
order paired with their indices.  The caller checks `k`'s range first,
as torch does. -/
def torchTopk (p : List ℚ) (k : Nat) : List ℚ × List Nat :=
  let idxs := (argsortDesc p).take k
  (idxs.map (fun i => p.getD i 0), idxs)

/-! ## Alphabet (notebook cell “encode the text”)

`chars = tuple(set(text))`, `int2char = dict(enumerate(chars))`,
`char2int = {ch: ii for ii, ch in int2char.items()}`.  `tuple(set(text))`
is some duplicate-free enumeration of the text's characters; theorems
quantify over any such list. -/

/-- `int2char[i]`: dict built from `enumerate(chars)`, i.e. positional
lookup; missing key is a `KeyError`, modelled by `none`. -/
def int2char (chars : List Char) (i : Nat) : Option Char :=
  chars.get? i

/-- `char2int[ch]`: the inverse dict `{ch: ii for ii, ch in ...}`;
missing key is a `KeyError`, modelled by `none`. -/
def char2int (chars : List Char) (ch : Char) : Option Nat :=
  if ch ∈ chars then some (List.indexOf ch chars) else none

/-! ## The model capability and the sampler (`predict`, `sample`) -/

/-- The trained network as the sampler consumes it: `chars` is
`net.chars` (the tuple the alphabet was built from), `init` is
`net.init_hidden(1)`, and `step ix h` is the composite
`F.softmax(net(one_hot(ix), h), dim=1)` — the probability vector `p`
(the contents of a `(1, V)` tensor) together with the new hidden state.
The hidden-state type `H` is opaque. -/
structure Net (H : Type) where
  chars : List Char
  init : H
  step : Nat → H → List ℚ × H

/-- Vocabulary size `V = len(net.chars)`. -/
def Net.V {H : Type} (net : Net H) : Nat := net.chars.length

/-- Well-formed model: every step yields a vector of `V` strictly
positive entries — exactly what softmax guarantees for its output. -/
def Net.WF {H : Type} (net : Net H) : Prop :=
  ∀ ix h, (net.step ix h).1.length = net.V ∧ ∀ q ∈ (net.step ix h).1, 0 < q

/-- `predict(net, char, h, top_k)` from the notebook, line by line:
`net.char2int[char]` (a `KeyError` when absent), the detach
`tuple([each.data for each in h])` (a `TypeError` when `h` is `None`),
the model step producing `p`, the `top_k` branch (`np.arange(V)` vs.
`p.topk(top_k)` followed by `squeeze`), the squeeze of `p`, the draw
`np.random.choice(top_ch, p=p/p.sum())`, and the final
`net.int2char[char]`.  `r` is the uniform variate consumed by the one
`np.random.choice` call. -/
def predict {H : Type} (net : Net H) (ch : Char) (h : Option H)
    (top_k : Option Int) (r : ℚ) : Except PyError (Char × H) :=
  match char2int net.chars ch with
  | none => .error .keyError
  | some ix =>
    match h with
    | none => .error .typeErrorNoneNotIterable
    | some h0 =>
      let ph := net.step ix h0
      let p := ph.1
      let res :=
        match top_k with
        | none =>
          let top_ch : NPVec Nat := ⟨[net.V], List.range net.V⟩
          let pv := NPVec.squeeze ⟨[1, p.length], p⟩
          np_random_choice top_ch
            ⟨pv.shape, pv.data.map (fun q => q / pv.data.sum)⟩ r
        | some k =>
          if k < 0 ∨ (p.length : Int) < k then .error .torchTopkOutOfRange
          else
            let t := torchTopk p k.toNat
            let top_ch := NPVec.squeeze ⟨[1, k.toNat], t.2⟩
            let pv := NPVec.squeeze ⟨[1, k.toNat], t.1⟩
            np_random_choice top_ch
              ⟨pv.shape, pv.data.map (fun q => q / pv.data.sum)⟩ r
      match res with
      | .error e => .error e
      | .ok c =>
        match int2char net.chars c with
        | none => .error .keyError
        | some cch => .ok (cch, ph.2)

/-- The priming loop of `sample`: feed each prime character through
`predict`, keeping only the latest predicted character and hidden
state.  `n` counts `predict` calls (each consumes one variate `rs n`).
Returns `none` for the character when the loop body never ran. -/
def runPrime {H : Type} (net : Net H) (top_k : Option Int) (rs : Nat → ℚ) :
    List Char → Option Char → H → Nat → Except PyError (Option Char × H × Nat)
  | [], last, h, n => .ok (last, h, n)
  | c :: cs, _, h, n =>
    match predict net c (some h) top_k (rs n) with
    | .error e => .error e
    | .ok (c2, h2) => runPrime net top_k rs cs (some c2) h2 (n + 1)

/-- The generation loop of `sample`: `size` times, feed `chars[-1]`
through `predict` and append the result. -/
def genLoop {H : Type} (net : Net H) (top_k : Option Int) (rs : Nat → ℚ) :
    Nat → List Char → H → Nat → Except PyError (List Char)
  | 0, acc, _, _ => .ok acc
  | m + 1, acc, h, n =>
    match predict net (acc.getLastD 'a') (some h) top_k (rs n) with
    | .error e => .error e
    | .ok (c2, h2) => genLoop net top_k rs m (acc ++ [c2]) h2 (n + 1)

/-- `sample(net, size, prime, top_k)` from the notebook:
`chars = [ch for ch in prime]`; prime loop; `chars.append(char)` — an
`UnboundLocalError` when `prime` was empty, since the loop never
assigned `char`; then the generation loop.  `rs` is the stream of
uniform variates consumed by successive `predict` calls. -/
def sample {H : Type} (net : Net H) (size : Nat) (prime : List Char)
    (top_k : Option Int) (rs : Nat → ℚ) : Except PyError (List Char) :=
  match runPrime net top_k rs prime none net.init 0 with
  | .error e => .error e
  | .ok (none, _, _) => .error .unboundLocalChar
  | .ok (some c0, h, n) => genLoop net top_k rs size (prime ++ [c0]) h n

/-! ## Batch windower (`get_batches`)

The notebook's `get_batches` body is an unfilled TODO exercise stub
(every assignment's right-hand side is blank), so the windower is
modelled from the spec. -/

/-- Modelled from the spec: the notebook's `get_batches` body is a
fill-in-the-blank TODO stub, so this follows §4.1 of the spec verbatim.
`batch_chars = N * M`; `n_batches = ⌊L / batch_chars⌋`, failing with
`InsufficientDataError` when it is 0; truncate to
`n_batches * batch_chars` elements; reshape row-major into `N` rows of
length `n_batches * M`; for each window start `n = 0, M, 2M, …`:
`X = matrix[:, n : n+M]`, `Y[:, 0 : M-1] = matrix[:, n+1 : n+M]` and the
final column of `Y` wraps to `matrix[:, n+M]` when in bounds, else to
`matrix[:, 0]`. -/
def get_batches (arr : List Nat) (batch_size seq_length : Nat) :
    Except PyError (List (List (List Nat) × List (List Nat))) :=
  let batch_chars := batch_size * seq_length
  let n_batches := arr.length / batch_chars
  if n_batches = 0 then .error .insufficientData
  else
    let rowLen := n_batches * seq_length
    let truncated := arr.take (n_batches * batch_chars)
    let mat := (List.range batch_size).map
      (fun i => (truncated.drop (i * rowLen)).take rowLen)
    .ok ((List.range n_batches).map (fun b =>
      let n := b * seq_length
      let x := mat.map (fun row => (row.drop n).take seq_length)
      let y := mat.map (fun row =>
        let xr := (row.drop n).take seq_length
        let lastCol :=
          if n + seq_length < rowLen then row.getD (n + seq_length) 0
          else row.getD 0 0
        xr.drop 1 ++ [lastCol])
      (x, y)))

/-! ## Projections of `predict`'s intermediate values

Named views of the tensors `predict` manipulates, used to state the
sampling theorems. -/

/-- The probability vector `p` the model produces for character `ch` in
hidden state `h0` (after the `char2int` lookup). -/
def stepDist {H : Type} (net : Net H) (ch : Char) (h0 : H) : List ℚ :=
  (net.step (List.indexOf ch net.chars) h0).1

/-- The hidden state the model returns alongside `stepDist`. -/
def stepHid {H : Type} (net : Net H) (ch : Char) (h0 : H) : H :=
  (net.step (List.indexOf ch net.chars) h0).2

/-- The index vector `top_ch` produced by `p.topk(k)`. -/
def topkIdxs {H : Type} (net : Net H) (ch : Char) (h0 : H) (k : Nat) : List Nat :=
  (torchTopk (stepDist net ch h0) k).2

/-- The value vector produced by `p.topk(k)`. -/
def topkProbs {H : Type} (net : Net H) (ch : Char) (h0 : H) (k : Nat) : List ℚ :=
  (torchTopk (stepDist net ch h0) k).1

/-- The renormalized weight vector `p / p.sum()` handed to
`np.random.choice` in the `top_k` branch. -/
def normWeights {H : Type} (net : Net H) (ch : Char) (h0 : H) (k : Nat) : List ℚ :=
  (topkProbs net ch h0 k).map (fun q => q / (topkProbs net ch h0 k).sum)

/-- The renormalized full distribution handed to `np.random.choice` in
the `top_k = None` branch. -/
def fullWeights {H : Type} (net : Net H) (ch : Char) (h0 : H) : List ℚ :=
  (stepDist net ch h0).map (fun q => q / (stepDist net ch h0).sum)

/-- The `top_k` preconditions under which the notebook's sampling step
actually succeeds: either the full distribution with `V ≥ 2`, or
`2 ≤ K ≤ V` (`K = 1` and `K = 0` fail inside `np.random.choice`,
`K < 0` and `K > V` fail inside `topk`). -/
def TopkOK {H : Type} (net : Net H) : Option Int → Prop
  | none => 2 ≤ net.V
  | some k => 2 ≤ k ∧ k ≤ (net.V : Int)

/-- A concrete three-character model instantiating the sampler
theorems: a fixed distribution, with a step-counting hidden state. -/
def exNet : Net Nat :=
  { chars := ['a', 'b', 'c'],
    init := 0,
    step := fun ix h => ([1/2, 1/3, 1/6], h + ix + 1) }

/-! ## Support lemmas -/

lemma sum_map_div (l : List ℚ) (s : ℚ) :
    (l.map (fun q => q / s)).sum = l.sum / s := by
  induction l with
  | nil => simp
  | cons x xs ih => simp [ih, add_div]

lemma choiceIdx_singleton (x : ℚ) (r : ℚ) : choiceIdx [x] r = 0 := by
  simp [choiceIdx]

lemma choiceIdx_cons₂ (x y : ℚ) (ys : List ℚ) (r : ℚ) :
    choiceIdx (x :: y :: ys) r =
      if r < x then 0 else choiceIdx (y :: ys) (r - x) + 1 := rfl

lemma choiceIdx_lt_length (w : List ℚ) (r : ℚ) (hw : w ≠ []) :
    choiceIdx w r < w.length := by
  induction w generalizing r with
  | nil => exact absurd rfl hw
  | cons x xs ih =>
    cases xs with
    | nil => simp [choiceIdx_singleton]
    | cons y ys =>
      rw [choiceIdx_cons₂]
      split
      · simp
      · have := ih (r - x) (by simp)
        simpa using Nat.succ_lt_succ this

lemma choiceIdx_spec (w : List ℚ) (r : ℚ) (hr0 : 0 ≤ r) (hrs : r < w.sum) :
    ((w.take (choiceIdx w r)).sum ≤ r ∧ r < (w.take (choiceIdx w r + 1)).sum) := by
  induction w generalizing r with
  | nil => simp at hrs; exact absurd (lt_of_le_of_lt hr0 hrs) (lt_irrefl 0)
  | cons x xs ih =>
    cases xs with
    | nil =>
      rw [choiceIdx_singleton]
      refine ⟨by simpa using hr0, ?_⟩
      simpa using hrs
    | cons y ys =>
      rw [choiceIdx_cons₂]
      split
      · next hlt => exact ⟨by simpa using hr0, by simpa using hlt⟩
      · next hge =>
        have hxr : x ≤ r := le_of_not_lt hge
        have h0' : 0 ≤ r - x := sub_nonneg.mpr hxr
        have hs' : r - x < (y :: ys).sum := by
          have : r < x + (y :: ys).sum := by simpa [List.sum_cons] using hrs
          linarith
        obtain ⟨h1, h2⟩ := ih (r - x) h0' hs'
        constructor
        · rw [List.take_succ_cons, List.sum_cons]
          linarith
        · rw [List.take_succ_cons, List.sum_cons]
          linarith

lemma argsortDesc_perm (p : List ℚ) :
    (argsortDesc p).Perm (List.range p.length) :=
  List.perm_insertionSort _ _

lemma argsortDesc_length (p : List ℚ) : (argsortDesc p).length = p.length := by
  simpa using (argsortDesc_perm p).length_eq

lemma argsortDesc_nodup (p : List ℚ) : (argsortDesc p).Nodup :=
  (argsortDesc_perm p).nodup_iff.mpr (List.nodup_range _)

lemma argsortDesc_mem (p : List ℚ) {i : Nat} (hi : i ∈ argsortDesc p) :
    i < p.length := by
  have := (argsortDesc_perm p).mem_iff.mp hi
  exact List.mem_range.mp this

lemma argsortDesc_mem_of_lt (p : List ℚ) {i : Nat} (hi : i < p.length) :
    i ∈ argsortDesc p :=
  (argsortDesc_perm p).mem_iff.mpr (List.mem_range.mpr hi)

lemma argsortDesc_sorted (p : List ℚ) :
    List.Sorted (fun i j => p.getD j 0 ≤ p.getD i 0) (argsortDesc p) := by
  haveI : IsTotal Nat (fun i j => p.getD j 0 ≤ p.getD i 0) :=
    ⟨fun a b => le_total _ _⟩
  haveI : IsTrans Nat (fun i j => p.getD j 0 ≤ p.getD i 0) :=
    ⟨fun _ _ _ h1 h2 => le_trans h2 h1⟩
  exact List.sorted_insertionSort _ _

/-- The top-`k` indices dominate every index they exclude. -/
lemma topk_dominates (p : List ℚ) (k : Nat) {j : Nat} (hj : j < p.length)
    (hjn : j ∉ (argsortDesc p).take k) :
    ∀ m ∈ (argsortDesc p).take k, p.getD j 0 ≤ p.getD m 0 := by
  intro m hm
  have hsorted := argsortDesc_sorted p
  have hsplit := List.take_append_drop k (argsortDesc p)
  rw [← hsplit] at hsorted
  have hpair := (List.pairwise_append.mp hsorted).2.2
  have hjmem : j ∈ argsortDesc p := argsortDesc_mem_of_lt p hj
  rw [← hsplit] at hjmem
  rcases List.mem_append.mp hjmem with hin | hdrop
  · exact absurd hin hjn
  · exact hpair m hm j hdrop

lemma squeeze_one_k {α : Type} (k : Nat) (hk : k ≠ 1) (l : List α) :
    NPVec.squeeze ⟨[1, k], l⟩ = ⟨[k], l⟩ := by
  simp [NPVec.squeeze, List.filter, hk]

/-- `np.random.choice` on a 1-d population with a valid weight vector
performs the inverse-CDF draw. -/
lemma np_random_choice_ok (idxs : List Nat) (w : List ℚ) (r : ℚ) (k : Nat)
    (hk0 : k ≠ 0) (hlen1 : idxs.length = k) (hlen2 : w.length = k)
    (hpos : ∀ q ∈ w, 0 ≤ q) (hsum : w.sum = 1) :
    np_random_choice ⟨[k], idxs⟩ ⟨[k], w⟩ r =
      .ok (idxs.getD (choiceIdx w r) 0) := by
  have hany : w.any (fun q => decide (q < 0)) = false :=
    List.any_eq_false.mpr (fun q hq => by simpa using not_lt.mpr (hpos q hq))
  simp [np_random_choice, hlen1, hlen2, hk0, hsum, hany]

lemma stepDist_length {H : Type} {net : Net H} (hwf : net.WF)
    (ch : Char) (h0 : H) : (stepDist net ch h0).length = net.V :=
  (hwf _ _).1

lemma stepDist_pos {H : Type} {net : Net H} (hwf : net.WF)
    (ch : Char) (h0 : H) : ∀ q ∈ stepDist net ch h0, 0 < q :=
  (hwf _ _).2

lemma topkIdxs_length {H : Type} {net : Net H} (hwf : net.WF)
    (ch : Char) (h0 : H) {k : Nat} (hk : k ≤ net.V) :
    (topkIdxs net ch h0 k).length = k := by
  simp only [topkIdxs, torchTopk]
  rw [List.length_take, argsortDesc_length, stepDist_length hwf]
  exact Nat.min_eq_left hk

lemma topkIdxs_mem_lt {H : Type} {net : Net H} (hwf : net.WF)
    (ch : Char) (h0 : H) (k : Nat) {i : Nat}
    (hi : i ∈ topkIdxs net ch h0 k) : i < net.V := by
  have : i ∈ argsortDesc (stepDist net ch h0) := by
    simp only [topkIdxs, torchTopk] at hi
    exact List.mem_of_mem_take hi
  have := argsortDesc_mem _ this
  rwa [stepDist_length hwf] at this

lemma topkProbs_eq_map {H : Type} (net : Net H) (ch : Char) (h0 : H) (k : Nat) :
    topkProbs net ch h0 k =
      (topkIdxs net ch h0 k).map (fun i => (stepDist net ch h0).getD i 0) := rfl

lemma topkProbs_pos {H : Type} {net : Net H} (hwf : net.WF)
    (ch : Char) (h0 : H) (k : Nat) :
    ∀ q ∈ topkProbs net ch h0 k, 0 < q := by
  intro q hq
  rw [topkProbs_eq_map] at hq
  obtain ⟨i, hi, rfl⟩ := List.mem_map.mp hq
  have hlt : i < (stepDist net ch h0).length := by
    rw [stepDist_length hwf]; exact topkIdxs_mem_lt hwf ch h0 k hi
  rw [List.getD_eq_getElem _ _ hlt]
  exact stepDist_pos hwf ch h0 _ (List.getElem_mem hlt)

lemma topkProbs_length {H : Type} {net : Net H} (hwf : net.WF)
    (ch : Char) (h0 : H) {k : Nat} (hk : k ≤ net.V) :
    (topkProbs net ch h0 k).length = k := by
  rw [topkProbs_eq_map, List.length_map]
  exact topkIdxs_length hwf ch h0 hk

lemma topkProbs_sum_pos {H : Type} {net : Net H} (hwf : net.WF)
    (ch : Char) (h0 : H) {k : Nat} (hk0 : k ≠ 0) (hk : k ≤ net.V) :
    0 < (topkProbs net ch h0 k).sum := by
  apply List.sum_pos _ (topkProbs_pos hwf ch h0 k)
  intro hnil
  have := topkProbs_length hwf ch h0 hk
  rw [hnil] at this
  exact hk0 this.symm

lemma normWeights_sum {H : Type} {net : Net H} (hwf : net.WF)
    (ch : Char) (h0 : H) {k : Nat} (hk0 : k ≠ 0) (hk : k ≤ net.V) :
    (normWeights net ch h0 k).sum = 1 := by
  rw [normWeights, sum_map_div]
  exact div_self (ne_of_gt (topkProbs_sum_pos hwf ch h0 hk0 hk))

lemma normWeights_nonneg {H : Type} {net : Net H} (hwf : net.WF)
    (ch : Char) (h0 : H) {k : Nat} (hk0 : k ≠ 0) (hk : k ≤ net.V) :
    ∀ q ∈ normWeights net ch h0 k, 0 ≤ q := by
  intro q hq
  obtain ⟨x, hx, rfl⟩ := List.mem_map.mp hq
  exact le_of_lt (div_pos (topkProbs_pos hwf ch h0 k x hx)
    (topkProbs_sum_pos hwf ch h0 hk0 hk))

lemma normWeights_length {H : Type} {net : Net H} (hwf : net.WF)
    (ch : Char) (h0 : H) {k : Nat} (hk : k ≤ net.V) :
    (normWeights net ch h0 k).length = k := by
  rw [normWeights, List.length_map]
  exact topkProbs_length hwf ch h0 hk

lemma char2int_eq_some {chars : List Char} {ch : Char} (hch : ch ∈ chars) :
    char2int chars ch = some (List.indexOf ch chars) := by
  simp [char2int, hch]

/-- Exact evaluation of `predict` in the `top_k = K` branch, `2 ≤ K ≤ V`:
the draw goes through and returns the character at the top-`K` index
selected by the inverse-CDF draw over the renormalized top-`K` weights. -/
lemma predict_topk_eq {H : Type} {net : Net H} (hwf : net.WF)
    {ch : Char} (hch : ch ∈ net.chars) (h0 : H) {k : Nat} (r : ℚ)
    (hk2 : 2 ≤ k) (hkV : k ≤ net.V) :
    predict net ch (some h0) (some (k : Int)) r =
      .ok (net.chars.getD
            ((topkIdxs net ch h0 k).getD
              (choiceIdx (normWeights net ch h0 k) r) 0) 'a',
          stepHid net ch h0) := by
  have hk0 : k ≠ 0 := by omega
  have hk1 : k ≠ 1 := by omega
  have hpl : (stepDist net ch h0).length = net.V := stepDist_length hwf ch h0
  have hnotlt : ¬((k : Int) < 0 ∨ ((stepDist net ch h0).length : Int) < (k : Int)) := by
    push_neg
    constructor
    · exact Int.natCast_nonneg k
    · rw [hpl]; exact_mod_cast hkV
  have hidx : choiceIdx (normWeights net ch h0 k) r < k := by
    have hne : normWeights net ch h0 k ≠ [] := by
      intro hnil
      have := normWeights_length hwf ch h0 hkV
      rw [hnil] at this
      exact hk0 this.symm
    have := choiceIdx_lt_length (normWeights net ch h0 k) r hne
    rwa [normWeights_length hwf ch h0 hkV] at this
  have hchosen : (topkIdxs net ch h0 k).getD
      (choiceIdx (normWeights net ch h0 k) r) 0 < net.V := by
    apply topkIdxs_mem_lt hwf ch h0 k
    have hlt : choiceIdx (normWeights net ch h0 k) r < (topkIdxs net ch h0 k).length := by
      rwa [topkIdxs_length hwf ch h0 hkV]
    rw [List.getD_eq_getElem _ _ hlt]
    exact List.getElem_mem hlt
  simp only [predict, char2int_eq_some hch, Int.toNat_natCast]
  rw [show ((net.step (List.indexOf ch net.chars) h0).1) = stepDist net ch h0 from rfl]
  rw [if_neg hnotlt]
  have htk : torchTopk (stepDist net ch h0) k =
      (topkProbs net ch h0 k, topkIdxs net ch h0 k) := rfl
  rw [htk]
  rw [squeeze_one_k k hk1, squeeze_one_k k hk1]
  rw [show ((topkProbs net ch h0 k).map
        (fun q => q / (topkProbs net ch h0 k).sum)) = normWeights net ch h0 k from rfl]
  rw [np_random_choice_ok _ _ r k hk0 (topkIdxs_length hwf ch h0 hkV)
    (normWeights_length hwf ch h0 hkV) (normWeights_nonneg hwf ch h0 hk0 hkV)
    (normWeights_sum hwf ch h0 hk0 hkV)]
  have hget : int2char net.chars ((topkIdxs net ch h0 k).getD
      (choiceIdx (normWeights net ch h0 k) r) 0) =
      some (net.chars.getD ((topkIdxs net ch h0 k).getD
        (choiceIdx (normWeights net ch h0 k) r) 0) 'a') := by
    rw [int2char, List.get?_eq_get hchosen, List.getD_eq_getElem _ _ hchosen]
    rfl
  simp only [hget, stepHid]

lemma fullWeights_sum {H : Type} {net : Net H} (hwf : net.WF)
    (ch : Char) (h0 : H) (hV : 1 ≤ net.V) :
    (fullWeights net ch h0).sum = 1 := by
  rw [fullWeights, sum_map_div]
  apply div_self
  apply ne_of_gt
  apply List.sum_pos _ (stepDist_pos hwf ch h0)
  intro hnil
  have := stepDist_length hwf ch h0
  rw [hnil] at this
  simp at this
  omega

lemma fullWeights_nonneg {H : Type} {net : Net H} (hwf : net.WF)
    (ch : Char) (h0 : H) (hV : 1 ≤ net.V) :
    ∀ q ∈ fullWeights net ch h0, 0 ≤ q := by
  intro q hq
  obtain ⟨x, hx, rfl⟩ := List.mem_map.mp hq
  apply le_of_lt
  apply div_pos (stepDist_pos hwf ch h0 x hx)
  apply List.sum_pos _ (stepDist_pos hwf ch h0)
  intro hnil
  have := stepDist_length hwf ch h0
  rw [hnil] at this
  simp at this
  omega

lemma fullWeights_length {H : Type} {net : Net H} (hwf : net.WF)
    (ch : Char) (h0 : H) : (fullWeights net ch h0).length = net.V := by
  rw [fullWeights, List.length_map]
  exact stepDist_length hwf ch h0

/-- Exact evaluation of `predict` in the `top_k = None` branch for
`V ≥ 2` (for `V = 1` the squeeze of `p` collapses to 0-d and the draw
fails): the draw goes through over the full renormalized distribution. -/
lemma predict_none_eq {H : Type} {net : Net H} (hwf : net.WF)
    {ch : Char} (hch : ch ∈ net.chars) (h0 : H) (r : ℚ)
    (hV : 2 ≤ net.V) :
    predict net ch (some h0) none r =
      .ok (net.chars.getD (choiceIdx (fullWeights net ch h0) r) 'a',
          stepHid net ch h0) := by
  have hV1 : (1 : Nat) ≤ net.V := by omega
  have hVne1 : net.V ≠ 1 := by omega
  have hpl : (stepDist net ch h0).length = net.V := stepDist_length hwf ch h0
  have hidx : choiceIdx (fullWeights net ch h0) r < net.V := by
    have hne : fullWeights net ch h0 ≠ [] := by
      intro hnil
      have := fullWeights_length hwf ch h0
      rw [hnil] at this
      simp at this
      omega
    have := choiceIdx_lt_length (fullWeights net ch h0) r hne
    rwa [fullWeights_length hwf ch h0] at this
  simp only [predict, char2int_eq_some hch]
  rw [show ((net.step (List.indexOf ch net.chars) h0).1) = stepDist net ch h0 from rfl]
  rw [hpl]
  rw [squeeze_one_k net.V hVne1]
  rw [show ((stepDist net ch h0).map
        (fun q => q / (stepDist net ch h0).sum)) = fullWeights net ch h0 from rfl]
  have hrange : (⟨[net.V], List.range net.V⟩ : NPVec Nat) = ⟨[net.V], List.range net.V⟩ := rfl
  rw [np_random_choice_ok (List.range net.V) _ r net.V (by omega)
    (List.length_range net.V) (fullWeights_length hwf ch h0)
    (fullWeights_nonneg hwf ch h0 hV1) (fullWeights_sum hwf ch h0 hV1)]
  have hgetr : (List.range net.V).getD (choiceIdx (fullWeights net ch h0) r) 0 =
      choiceIdx (fullWeights net ch h0) r := by
    rw [List.getD_eq_getElem _ _ (by simpa using hidx)]
    exact List.getElem_range _ _
  rw [hgetr]
  have hget : int2char net.chars (choiceIdx (fullWeights net ch h0) r) =
      some (net.chars.getD (choiceIdx (fullWeights net ch h0) r) 'a') := by
    rw [int2char, List.get?_eq_get hidx, List.getD_eq_getElem _ _ hidx]
    rfl
  simp only [hget, stepHid]

/-- `predict` succeeds and returns a vocabulary character whenever the
input character is in the vocabulary, the hidden state is supplied, and
`top_k` satisfies `TopkOK`. -/
lemma predict_ok {H : Type} {net : Net H} (hwf : net.WF)
    {ch : Char} (hch : ch ∈ net.chars) (h0 : H) (topk : Option Int) (r : ℚ)
    (ht : TopkOK net topk) :
    ∃ c2 h2, predict net ch (some h0) topk r = .ok (c2, h2) ∧ c2 ∈ net.chars := by
  cases topk with
  | none =>
    have hV : 2 ≤ net.V := ht
    refine ⟨_, _, predict_none_eq hwf hch h0 r hV, ?_⟩
    have hidx : choiceIdx (fullWeights net ch h0) r < net.V := by
      have hne : fullWeights net ch h0 ≠ [] := by
        intro hnil
        have := fullWeights_length hwf ch h0
        rw [hnil] at this
        simp at this
        omega
      have := choiceIdx_lt_length (fullWeights net ch h0) r hne
      rwa [fullWeights_length hwf ch h0] at this
    rw [List.getD_eq_getElem _ _ hidx]
    exact List.getElem_mem hidx
  | some k =>
    obtain ⟨hk2, hkV⟩ := ht
    have hk2' : 2 ≤ k.toNat := by omega
    have hkV' : k.toNat ≤ net.V := by omega
    have hcast : (k.toNat : Int) = k := Int.toNat_of_nonneg (by omega)
    rw [← hcast]
    refine ⟨_, _, predict_topk_eq hwf hch h0 r hk2' hkV', ?_⟩
    have hchosen : (topkIdxs net ch h0 k.toNat).getD
        (choiceIdx (normWeights net ch h0 k.toNat) r) 0 < net.V := by
      apply topkIdxs_mem_lt hwf ch h0 k.toNat
      have hlt : choiceIdx (normWeights net ch h0 k.toNat) r <
          (topkIdxs net ch h0 k.toNat).length := by
        rw [topkIdxs_length hwf ch h0 hkV']
        have hne : normWeights net ch h0 k.toNat ≠ [] := by
          intro hnil
          have := normWeights_length hwf ch h0 hkV'
          rw [hnil] at this
          simp at this
          omega
        have := choiceIdx_lt_length (normWeights net ch h0 k.toNat) r hne
        rwa [normWeights_length hwf ch h0 hkV'] at this
      rw [List.getD_eq_getElem _ _ hlt]
      exact List.getElem_mem hlt
    rw [List.getD_eq_getElem _ _ hchosen]
    exact List.getElem_mem hchosen

lemma runPrime_ok {H : Type} {net : Net H} (hwf : net.WF)
    (topk : Option Int) (rs : Nat → ℚ) (ht : TopkOK net topk) :
    ∀ (cs : List Char), (∀ c ∈ cs, c ∈ net.chars) →
      ∀ (last : Option Char) (h : H) (n : Nat),
      ∃ last2 h2,
        runPrime net topk rs cs last h n = .ok (last2, h2, n + cs.length) ∧
        ((cs = [] ∧ last2 = last) ∨ ∃ c2, last2 = some c2 ∧ c2 ∈ net.chars) := by
  intro cs
  induction cs with
  | nil =>
    intro _ last h n
    exact ⟨last, h, by simp [runPrime], Or.inl ⟨rfl, rfl⟩⟩
  | cons c cs ih =>
    intro hsub last h n
    obtain ⟨c2, h2, heq, hmem⟩ :=
      predict_ok hwf (hsub c (List.mem_cons_self c cs)) h topk (rs n) ht
    obtain ⟨last2, h3, heq2, hor⟩ :=
      ih (fun x hx => hsub x (List.mem_cons_of_mem c hx)) (some c2) h2 (n + 1)
    refine ⟨last2, h3, ?_, ?_⟩
    · simp only [runPrime, heq, heq2]
      congr 2
      simp [List.length_cons]
      omega
    · rcases hor with ⟨_, hl⟩ | hex
      · exact Or.inr ⟨c2, hl, hmem⟩
      · exact Or.inr hex

lemma genLoop_ok {H : Type} {net : Net H} (hwf : net.WF)
    (topk : Option Int) (rs : Nat → ℚ) (ht : TopkOK net topk) :
    ∀ (size : Nat) (acc : List Char) (h : H) (n : Nat),
      acc ≠ [] → acc.getLastD 'a' ∈ net.chars →
      ∃ rest, genLoop net topk rs size acc h n = .ok (acc ++ rest) ∧
        rest.length = size := by
  intro size
  induction size with
  | zero =>
    intro acc h n _ _
    exact ⟨[], by simp [genLoop], rfl⟩
  | succ m ih =>
    intro acc h n hne hlast
    obtain ⟨c2, h2, heq, hmem⟩ := predict_ok hwf hlast h topk (rs n) ht
    obtain ⟨rest, heq2, hlen⟩ := ih (acc ++ [c2]) h2 (n + 1)
      (by simp) (by simp [List.getLastD_concat, hmem])
    refine ⟨[c2] ++ rest, ?_, by simp [hlen]⟩
    simp only [genLoop, heq, heq2]
    congr 1
    simp

lemma squeeze_one_one {α : Type} (l : List α) :
    NPVec.squeeze ⟨[1, 1], l⟩ = ⟨[], l⟩ := by
  simp [NPVec.squeeze, List.filter]

lemma squeeze_one_zero {α : Type} (l : List α) :
    NPVec.squeeze ⟨[1, 0], l⟩ = ⟨[0], l⟩ := by
  simp [NPVec.squeeze, List.filter]

/-- With `top_k = 1`, `predict` always dies inside `np.random.choice`:
`squeeze` collapses the one-element `(1, 1)` tensors to 0-d, so numpy
either reads the 0-d index array as a non-positive population size (when
the top index is 0) or rejects the 0-d weight vector. -/
lemma predict_top1_eq {H : Type} {net : Net H} (hwf : net.WF)
    {ch : Char} (hch : ch ∈ net.chars) (h0 : H) (r : ℚ) (hV : 1 ≤ net.V) :
    predict net ch (some h0) (some 1) r =
      .error (if (argsortDesc (stepDist net ch h0)).headD 0 = 0
              then PyError.choicePopNonPositive
              else PyError.choicePNotOneDimensional) := by
  have hpl : (stepDist net ch h0).length = net.V := stepDist_length hwf ch h0
  have hlen : 0 < (argsortDesc (stepDist net ch h0)).length := by
    rw [argsortDesc_length, hpl]; omega
  obtain ⟨i0, tl, hcons⟩ : ∃ i0 tl, argsortDesc (stepDist net ch h0) = i0 :: tl := by
    cases hq : argsortDesc (stepDist net ch h0) with
    | nil => rw [hq] at hlen; simp at hlen
    | cons a b => exact ⟨a, b, rfl⟩
  have hnotlt : ¬((1 : Int) < 0 ∨ ((stepDist net ch h0).length : Int) < 1) := by
    push_neg
    refine ⟨by omega, ?_⟩
    rw [hpl]; exact_mod_cast hV
  have htake : (argsortDesc (stepDist net ch h0)).take 1 = [i0] := by
    rw [hcons]; rfl
  have htk : torchTopk (stepDist net ch h0) (1 : Int).toNat =
      ([(stepDist net ch h0).getD i0 0], [i0]) := by
    simp [torchTopk, htake]
  rw [hcons]
  simp only [List.headD_cons]
  simp only [predict, char2int_eq_some hch]
  rw [show ((net.step (List.indexOf ch net.chars) h0).1) = stepDist net ch h0 from rfl]
  rw [if_neg hnotlt, htk]
  simp only [Int.toNat_one]
  rw [squeeze_one_one, squeeze_one_one]
  by_cases hi0 : i0 = 0
  · rw [if_pos hi0]
    simp [np_random_choice, hi0]
  · rw [if_neg hi0]
    simp [np_random_choice, hi0]

/-- Existential form of `predict_top1_eq`. -/
lemma predict_top1_error {H : Type} {net : Net H} (hwf : net.WF)
    {ch : Char} (hch : ch ∈ net.chars) (h0 : H) (r : ℚ) (hV : 1 ≤ net.V) :
    ∃ e, predict net ch (some h0) (some 1) r = .error e ∧
      (e = PyError.choicePopNonPositive ∨ e = PyError.choicePNotOneDimensional) := by
  rw [predict_top1_eq hwf hch h0 r hV]
  split
  · exact ⟨_, rfl, Or.inl rfl⟩
  · exact ⟨_, rfl, Or.inr rfl⟩

/-- With `top_k ≤ 0` or `top_k > V`, `predict` fails inside the
libraries: `topk` rejects a negative or too-large `k`, and `k = 0`
reaches `np.random.choice` with an empty 1-d population. -/
lemma predict_invalid_topk_error {H : Type} {net : Net H} (hwf : net.WF)
    {ch : Char} (hch : ch ∈ net.chars) (h0 : H) (k : Int) (r : ℚ)
    (hk : k ≤ 0 ∨ (net.V : Int) < k) :
    predict net ch (some h0) (some k) r =
      .error (if k = 0 then PyError.choiceEmptyA else PyError.torchTopkOutOfRange) := by
  have hpl : (stepDist net ch h0).length = net.V := stepDist_length hwf ch h0
  by_cases hk0 : k = 0
  · subst hk0
    have hnotlt : ¬((0 : Int) < 0 ∨ ((stepDist net ch h0).length : Int) < 0) := by
      push_neg
      exact ⟨le_refl 0, Int.natCast_nonneg _⟩
    have htk : torchTopk (stepDist net ch h0) (0 : Int).toNat = ([], []) := by
      simp [torchTopk]
    simp only [predict, char2int_eq_some hch]
    rw [show ((net.step (List.indexOf ch net.chars) h0).1) = stepDist net ch h0 from rfl]
    rw [if_neg hnotlt, htk]
    simp only [Int.toNat_zero]
    rw [squeeze_one_zero, squeeze_one_zero]
    simp [np_random_choice]
  · have hlt : (k < 0 ∨ ((stepDist net ch h0).length : Int) < k) := by
      rcases hk with hneg | hbig
      · left; omega
      · right; rw [hpl]; exact hbig
    simp only [predict, char2int_eq_some hch]
    rw [show ((net.step (List.indexOf ch net.chars) h0).1) = stepDist net ch h0 from rfl]
    rw [if_pos hlt]
    simp [hk0]

/-- With the hidden state left at its default `None`, `predict` reaches
`tuple([each.data for each in h])` (after the `char2int` lookup) and
dies iterating `None` — for any vocabulary character, before the model
is invoked. -/
lemma predict_none_hidden_error {H : Type} (net : Net H) {ch : Char}
    (hch : ch ∈ net.chars) (topk : Option Int) (r : ℚ) :
    predict net ch none topk r = .error PyError.typeErrorNoneNotIterable := by
  simp [predict, char2int_eq_some hch]

lemma exNet_wf : exNet.WF := by
  intro ix h
  refine ⟨rfl, ?_⟩
  intro q hq
  simp [exNet] at hq
  rcases hq with rfl | rfl | rfl <;> norm_num

/-- Length of a row of the reshaped corpus matrix in `get_batches`. -/
lemma gb_row_length (arr : List Nat) (N M i : Nat) (hi : i < N) :
    (((arr.take ((arr.length / (N * M)) * (N * M))).drop
        (i * ((arr.length / (N * M)) * M))).take ((arr.length / (N * M)) * M)).length
      = (arr.length / (N * M)) * M := by
  set nb := arr.length / (N * M) with hnbdef
  rw [List.length_take, List.length_drop, List.length_take]
  have h1 : nb * (N * M) ≤ arr.length := by
    rw [hnbdef]; exact Nat.div_mul_le_self _ _
  have h2 : i * (nb * M) + nb * M ≤ nb * (N * M) := by
    calc i * (nb * M) + nb * M = (i + 1) * (nb * M) := by ring
    _ ≤ N * (nb * M) := Nat.mul_le_mul_right _ (by omega)
    _ = nb * (N * M) := by ring
  rw [Nat.min_eq_left h1]
  exact Nat.min_eq_left (Nat.le_sub_of_add_le (by rw [Nat.add_comm]; exact h2))

/-- Length of one `seq_length`-wide window of a matrix row. -/
lemma gb_window_length (row : List Nat) (M bIdx nb : Nat)
    (hrow : row.length = nb * M) (hb : bIdx < nb) :
    ((row.drop (bIdx * M)).take M).length = M := by
  rw [List.length_take, List.length_drop, hrow]
  have h1 : bIdx * M + M ≤ nb * M := by
    calc bIdx * M + M = (bIdx + 1) * M := by ring
    _ ≤ nb * M := Nat.mul_le_mul_right _ (by omega)
  exact Nat.min_eq_left (Nat.le_sub_of_add_le (by rw [Nat.add_comm]; exact h1))

/-- The shifted target row agrees with the input row one column later,
on every column but the last. -/
lemma shift_entry (xs : List Nat) (c : Nat) (j : Nat) (hj : j + 1 < xs.length) :
    (xs.drop 1 ++ [c]).getD j 0 = xs.getD (j + 1) 0 := by
  have hj1 : j < (xs.drop 1).length := by rw [List.length_drop]; omega
  rw [List.getD_append _ _ _ _ hj1]
  rw [List.getD_eq_getElem _ _ hj1, List.getD_eq_getElem _ _ hj]
  rw [List.getElem_drop]
  congr 1
  omega

lemma getD_map_range {α : Type} (f : Nat → α) (N i : Nat) (hi : i < N) (d : α) :
    ((List.range N).map f).getD i d = f i := by
  rw [List.getD_eq_getElem _ _ (by simpa using hi)]
  rw [List.getElem_map, List.getElem_range]

/-- The descending argsort of the concrete distribution used by
`exNet`. -/
lemma argsortDesc_exDist : argsortDesc [(1:ℚ)/2, 1/3, 1/6] = [0, 1, 2] := by
  norm_num [argsortDesc, List.insertionSort, List.orderedInsert, List.range_succ]

/-! ## Claim theorems -/

/-- C1 (amended): for a well-formed net, `L ≥ 0`, a non-empty prime
drawn from the net's vocabulary, and `top_k` either unset (with `V ≥ 2`)
or `2 ≤ K ≤ V`, `sample` returns the prime, then the one symbol
predicted after the last prime symbol, then the `L` generated symbols —
`len(P) + 1 + L` symbols in that order.  The original claim's "every
valid top_k" (`1 ≤ K ≤ V`) fails at `K = 1`, where `predict`'s draw
always errors (see the counterexample and C10). -/
theorem sample_output_length_and_order {H : Type} (net : Net H) (size : Nat)
    (prime : List Char) (topk : Option Int) (rs : Nat → ℚ)
    (hwf : net.WF) (hne : prime ≠ []) (hsub : ∀ c ∈ prime, c ∈ net.chars)
    (ht : TopkOK net topk) :
    ∃ c0 rest, sample net size prime topk rs = .ok (prime ++ c0 :: rest) ∧
      rest.length = size ∧
      (prime ++ c0 :: rest).length = prime.length + 1 + size := by
  obtain ⟨last2, h2, heq, hor⟩ :=
    runPrime_ok hwf topk rs ht prime hsub none net.init 0
  rcases hor with ⟨hnil, _⟩ | ⟨c0, hl2, hc0⟩
  · exact absurd hnil hne
  · subst hl2
    obtain ⟨rest, heq2, hlen⟩ := genLoop_ok hwf topk rs ht size (prime ++ [c0]) h2
      (0 + prime.length) (by simp) (by simp [List.getLastD_concat, hc0])
    refine ⟨c0, rest, ?_, hlen, ?_⟩
    · simp only [sample, heq, heq2]
      congr 1
      simp
    · simp [hlen]
      omega

/-- C1 witness: a concrete instantiation of the amended claim. -/
theorem sample_output_length_witness :
    ∃ c0 rest,
      sample exNet 2 ['a', 'b'] none (fun _ => 1/4) = .ok (['a', 'b'] ++ c0 :: rest) ∧
      rest.length = 2 ∧
      (['a', 'b'] ++ c0 :: rest).length = (['a', 'b'] : List Char).length + 1 + 2 :=
  sample_output_length_and_order exNet 2 ['a', 'b'] none (fun _ => 1/4)
    exNet_wf (by simp) (by decide) (by exact (by decide : 2 ≤ exNet.V))

/-- C1 counterexample: `top_k = 1` is valid by the spec (`1 ≤ K ≤ V`,
here `V = 3`), the prime `"a"` is non-empty and `L = 0 ≥ 0`, yet
`sample` raises inside `np.random.choice` and returns no string at all —
so no string of length `len(P) + 1 + L = 2` is produced. -/
theorem sample_output_length_counterexample :
    sample exNet 0 ['a'] (some 1) (fun _ => 1/4) =
      .error PyError.choicePopNonPositive := by
  have hpred : predict exNet 'a' (some exNet.init) (some 1) (1/4) =
      .error PyError.choicePopNonPositive := by
    rw [predict_top1_eq exNet_wf (by decide) exNet.init (1/4) (by decide)]
    rw [show stepDist exNet 'a' exNet.init = [(1:ℚ)/2, 1/3, 1/6] from rfl]
    rw [argsortDesc_exDist]
    simp
  simp only [sample, runPrime]
  rw [hpred]

/-- C3 (amended): with `top_k = K`, `2 ≤ K ≤ V` (the claim's `K = 1`
always fails in `np.random.choice` — see the counterexample), the symbol
`predict` returns is one of the `K` highest-probability symbols of the
step's distribution, and it is drawn by inverse-CDF over exactly the
top-`K` probabilities renormalized to sum to 1: the selected position
`i` is the one whose normalized cumulative interval contains `r`. -/
theorem predict_topk_membership_and_draw {H : Type} (net : Net H) (ch : Char)
    (h0 : H) (k : Nat) (r : ℚ) (hwf : net.WF) (hch : ch ∈ net.chars)
    (hk2 : 2 ≤ k) (hkV : k ≤ net.V) (hr0 : 0 ≤ r) (hr1 : r < 1) :
    ∃ i, i < k ∧
      predict net ch (some h0) (some (k : Int)) r =
        .ok (net.chars.getD ((topkIdxs net ch h0 k).getD i 0) 'a',
             stepHid net ch h0) ∧
      (topkIdxs net ch h0 k).getD i 0 ∈ topkIdxs net ch h0 k ∧
      (topkIdxs net ch h0 k).length = k ∧
      (topkIdxs net ch h0 k).Nodup ∧
      (∀ j, j < net.V → j ∉ topkIdxs net ch h0 k →
        ∀ m ∈ topkIdxs net ch h0 k,
          (stepDist net ch h0).getD j 0 ≤ (stepDist net ch h0).getD m 0) ∧
      normWeights net ch h0 k =
        (topkProbs net ch h0 k).map (fun q => q / (topkProbs net ch h0 k).sum) ∧
      (normWeights net ch h0 k).sum = 1 ∧
      ((normWeights net ch h0 k).take i).sum ≤ r ∧
      r < ((normWeights net ch h0 k).take (i + 1)).sum := by
  have hk0 : k ≠ 0 := by omega
  have hpl : (stepDist net ch h0).length = net.V := stepDist_length hwf ch h0
  have hsum1 : (normWeights net ch h0 k).sum = 1 := normWeights_sum hwf ch h0 hk0 hkV
  have hwne : normWeights net ch h0 k ≠ [] := by
    intro hnil
    have := normWeights_length hwf ch h0 hkV
    rw [hnil] at this
    simp at this
    omega
  refine ⟨choiceIdx (normWeights net ch h0 k) r, ?_, ?_, ?_, ?_, ?_, ?_, rfl, hsum1, ?_, ?_⟩
  · have := choiceIdx_lt_length (normWeights net ch h0 k) r hwne
    rwa [normWeights_length hwf ch h0 hkV] at this
  · exact predict_topk_eq hwf hch h0 r hk2 hkV
  · have hlt : choiceIdx (normWeights net ch h0 k) r < (topkIdxs net ch h0 k).length := by
      rw [topkIdxs_length hwf ch h0 hkV]
      have := choiceIdx_lt_length (normWeights net ch h0 k) r hwne
      rwa [normWeights_length hwf ch h0 hkV] at this
    rw [List.getD_eq_getElem _ _ hlt]
    exact List.getElem_mem hlt
  · exact topkIdxs_length hwf ch h0 hkV
  · exact List.Nodup.sublist (List.take_sublist _ _) (argsortDesc_nodup _)
  · intro j hj hjn m hm
    exact topk_dominates (stepDist net ch h0) k (by rwa [hpl]) hjn m hm
  · exact (choiceIdx_spec _ r hr0 (by rw [hsum1]; exact hr1)).1
  · exact (choiceIdx_spec _ r hr0 (by rw [hsum1]; exact hr1)).2

/-- C3 witness: a concrete instantiation of the amended claim. -/
theorem predict_topk_membership_witness :
    ∃ i, i < 2 ∧
      predict exNet 'a' (some 0) (some ((2 : Nat) : Int)) (1/4) =
        .ok (exNet.chars.getD ((topkIdxs exNet 'a' 0 2).getD i 0) 'a',
             stepHid exNet 'a' 0) ∧
      (topkIdxs exNet 'a' 0 2).getD i 0 ∈ topkIdxs exNet 'a' 0 2 ∧
      (topkIdxs exNet 'a' 0 2).length = 2 ∧
      (topkIdxs exNet 'a' 0 2).Nodup ∧
      (∀ j, j < exNet.V → j ∉ topkIdxs exNet 'a' 0 2 →
        ∀ m ∈ topkIdxs exNet 'a' 0 2,
          (stepDist exNet 'a' 0).getD j 0 ≤ (stepDist exNet 'a' 0).getD m 0) ∧
      normWeights exNet 'a' 0 2 =
        (topkProbs exNet 'a' 0 2).map (fun q => q / (topkProbs exNet 'a' 0 2).sum) ∧
      (normWeights exNet 'a' 0 2).sum = 1 ∧
      ((normWeights exNet 'a' 0 2).take i).sum ≤ 1/4 ∧
      (1/4 : ℚ) < ((normWeights exNet 'a' 0 2).take (i + 1)).sum :=
  predict_topk_membership_and_draw exNet 'a' 0 2 (1/4) exNet_wf
    (by decide) (by omega) (by decide) (by norm_num) (by norm_num)

/-- C3 counterexample: `K = 1` satisfies the claim's `1 ≤ K ≤ V`
(`V = 3`), but `predict` raises inside `np.random.choice` instead of
returning the highest-probability symbol. -/
theorem predict_topk_membership_counterexample :
    predict exNet 'b' (some 0) (some 1) (1/2) =
      .error PyError.choicePopNonPositive := by
  rw [predict_top1_eq exNet_wf (by decide) 0 (1/2) (by decide)]
  rw [show stepDist exNet 'b' 0 = [(1:ℚ)/2, 1/3, 1/6] from rfl]
  rw [argsortDesc_exDist]
  simp

/-- C5 (amended): for `top_k ≤ 0` or `top_k > V`, `predict` fails before
any symbol is sampled — but with errors surfaced by the libraries
(torch's `topk` range error for `top_k < 0` or `top_k > V`, numpy's
empty-population error for `top_k = 0`), never with the spec's
`InvalidTopKError`, which the notebook does not define or raise. -/
theorem predict_invalid_topk_fails {H : Type} (net : Net H) (ch : Char)
    (h0 : H) (k : Int) (r : ℚ) (hwf : net.WF) (hch : ch ∈ net.chars)
    (hk : k ≤ 0 ∨ (net.V : Int) < k) :
    ∃ e, predict net ch (some h0) (some k) r = .error e ∧
      (e = PyError.choiceEmptyA ∨ e = PyError.torchTopkOutOfRange) ∧
      e ≠ PyError.invalidTopK := by
  by_cases hk0 : k = 0
  · refine ⟨PyError.choiceEmptyA, ?_, Or.inl rfl, by decide⟩
    have := predict_invalid_topk_error hwf hch h0 k r hk
    rwa [if_pos hk0] at this
  · refine ⟨PyError.torchTopkOutOfRange, ?_, Or.inr rfl, by decide⟩
    have := predict_invalid_topk_error hwf hch h0 k r hk
    rwa [if_neg hk0] at this

/-- C5 witness: a concrete instantiation (`top_k = 5 > V = 3`). -/
theorem predict_invalid_topk_witness :
    ∃ e, predict exNet 'b' (some 0) (some 5) (1/4) = .error e ∧
      (e = PyError.choiceEmptyA ∨ e = PyError.torchTopkOutOfRange) ∧
      e ≠ PyError.invalidTopK :=
  predict_invalid_topk_fails exNet 'b' 0 5 (1/4) exNet_wf (by decide)
    (by right; decide)

/-- C5 counterexample: at `top_k = 4 > V = 3` the failure is torch's
`topk` range error, not an `InvalidTopKError` — the named error class the
claim promises does not exist in the code. -/
theorem predict_invalid_topk_counterexample :
    predict exNet 'a' (some 0) (some 4) (1/4) = .error PyError.torchTopkOutOfRange ∧
      PyError.torchTopkOutOfRange ≠ PyError.invalidTopK :=
  ⟨by rfl, by decide⟩

/-- C6 (amended): with an empty prime, `sample` produces no output and
fails — but with Python's unbound-local failure at `chars.append(char)`
(the priming loop never assigned `char`), not with the spec's
`EmptyPrimeError`, which the notebook does not define or raise. -/
theorem sample_empty_prime_fails {H : Type} (net : Net H) (size : Nat)
    (topk : Option Int) (rs : Nat → ℚ) :
    sample net size [] topk rs = .error PyError.unboundLocalChar := by
  simp [sample, runPrime]

/-- C6 counterexample: the concrete failure is the unbound-local error,
not `EmptyPrimeError`. -/
theorem sample_empty_prime_counterexample :
    sample exNet 1 [] none (fun _ => 1/4) = .error PyError.unboundLocalChar ∧
      PyError.unboundLocalChar ≠ PyError.emptyPrime :=
  ⟨by rfl, by decide⟩

/-- C8: the alphabet built from the training text (`chars =
tuple(set(text))`, which enumerates the text's distinct characters) is a
total bijection between those characters and `[0, V)`:
`int2char[char2int[ch]] == ch` for every character of the text and
`char2int[int2char[i]] == i` for every index `i < V`. -/
theorem alphabet_bijection (text chars : List Char) (hnd : chars.Nodup)
    (hcov : ∀ c ∈ text, c ∈ chars) :
    (∀ ch ∈ text, (char2int chars ch).bind (int2char chars) = some ch) ∧
    (∀ i < chars.length, ((int2char chars i).bind (char2int chars)) = some i) := by
  constructor
  · intro ch hch
    have hmem : ch ∈ chars := hcov ch hch
    have hlt : List.indexOf ch chars < chars.length := List.indexOf_lt_length.mpr hmem
    rw [char2int_eq_some hmem]
    show int2char chars (List.indexOf ch chars) = some ch
    rw [int2char, List.get?_eq_get hlt]
    exact congrArg some (List.indexOf_get hlt)
  · intro i hi
    rw [int2char, List.get?_eq_get hi]
    show char2int chars (chars.get ⟨i, hi⟩) = some i
    rw [char2int_eq_some (List.get_mem chars i hi)]
    exact congrArg some (List.get_indexOf hnd ⟨i, hi⟩)

/-- C8 witness: a concrete alphabet. -/
theorem alphabet_bijection_witness :
    (∀ ch ∈ ['b', 'a', 'b'], (char2int ['a', 'b'] ch).bind (int2char ['a', 'b']) = some ch) ∧
    (∀ i < (['a', 'b'] : List Char).length,
      ((int2char ['a', 'b'] i).bind (char2int ['a', 'b'])) = some i) :=
  alphabet_bijection ['b', 'a', 'b'] ['a', 'b'] (by decide) (by decide)

/-- C9 (amended): with the hidden state left at its declared default
`h = None`, `predict` on any vocabulary character fails with the
`TypeError` from iterating `None` in `tuple([each.data for each in h])`,
before the model is ever invoked — so `h` is not actually optional.  (A
character outside the vocabulary fails even earlier, with the `KeyError`
from `net.char2int[char]` — see the counterexample — so "always a
TypeError" holds only for vocabulary characters.) -/
theorem predict_default_hidden_fails {H : Type} (net : Net H) (ch : Char)
    (topk : Option Int) (r : ℚ) (hch : ch ∈ net.chars) :
    predict net ch none topk r = .error PyError.typeErrorNoneNotIterable :=
  predict_none_hidden_error net hch topk r

/-- C9 witness: a concrete instantiation. -/
theorem predict_default_hidden_witness :
    predict exNet 'a' none none (1/4) = .error PyError.typeErrorNoneNotIterable :=
  predict_default_hidden_fails exNet 'a' none (1/4) (by decide)

/-- C9 counterexample: for a character outside the vocabulary the
`char2int` lookup raises `KeyError` first, so `predict` with `h = None`
does not *always* fail with a `TypeError`. -/
theorem predict_default_hidden_counterexample :
    predict exNet 'z' none none (1/4) = .error PyError.keyError ∧
      PyError.keyError ≠ PyError.typeErrorNoneNotIterable :=
  ⟨by rfl, by decide⟩

/-- C10: with `top_k = 1` — a positive value not exceeding `V` —
`predict` always fails at the sampling step: `squeeze` collapses the
one-element `(1, 1)` tensors to 0-d arrays, on which `np.random.choice`
raises (reading the 0-d index array as a non-positive population size
when the top index is 0, rejecting the 0-d weight vector otherwise);
no symbol is ever produced. -/
theorem predict_top1_always_fails {H : Type} (net : Net H) (ch : Char)
    (h0 : H) (r : ℚ) (hwf : net.WF) (hch : ch ∈ net.chars) (hV : 1 ≤ net.V) :
    ∃ e, predict net ch (some h0) (some 1) r = .error e ∧
      (e = PyError.choicePopNonPositive ∨ e = PyError.choicePNotOneDimensional) :=
  predict_top1_error hwf hch h0 r hV

/-- C10 witness: a concrete instantiation. -/
theorem predict_top1_always_fails_witness :
    ∃ e, predict exNet 'c' (some 0) (some 1) (1/3) = .error e ∧
      (e = PyError.choicePopNonPositive ∨ e = PyError.choicePNotOneDimensional) :=
  predict_top1_always_fails exNet 'c' 0 (1/3) exNet_wf (by decide) (by decide)

/-- C2: for every batch `(X, Y)` yielded by `get_batches` (modelled from
the spec, the notebook's body being a TODO stub), every row `i < N` and
every column `j < M - 1`, `Y[i][j] = X[i][j+1]`: the target matrix is
the input matrix shifted one column left on all but its last column. -/
theorem get_batches_shift_invariant (arr : List Nat) (N M : Nat)
    (bs : List (List (List Nat) × List (List Nat)))
    (heq : get_batches arr N M = .ok bs) :
    ∀ b ∈ bs, ∀ i j, i < N → j + 1 < M →
      (b.2.getD i []).getD j 0 = (b.1.getD i []).getD (j + 1) 0 := by
  intro b hb i j hi hj
  have hnb : arr.length / (N * M) ≠ 0 := by
    intro h0
    simp [get_batches, h0] at heq
  simp only [get_batches] at heq
  rw [if_neg hnb] at heq
  injection heq with hbs
  subst hbs
  obtain ⟨bi, hbi, rfl⟩ := List.mem_map.mp hb
  rw [List.mem_range] at hbi
  simp only [List.map_map]
  rw [getD_map_range _ N i hi, getD_map_range _ N i hi]
  simp only [Function.comp]
  have hxr : (((((arr.take ((arr.length / (N * M)) * (N * M))).drop
      (i * ((arr.length / (N * M)) * M))).take ((arr.length / (N * M)) * M)).drop
        (bi * M)).take M).length = M :=
    gb_window_length _ M bi _ (gb_row_length arr N M i hi) hbi
  exact shift_entry _ _ j (by rw [hxr]; exact hj)

/-- C2 witness: the spec's own worked example, corpus `[0, …, 7]` with
`N = 2`, `M = 2`. -/
theorem get_batches_shift_invariant_witness :
    (([[1, 2], [5, 6]] : List (List Nat)).getD 0 []).getD 0 0 =
      (([[0, 1], [4, 5]] : List (List Nat)).getD 0 []).getD 1 0 :=
  get_batches_shift_invariant (List.range 8) 2 2
    [([[0, 1], [4, 5]], [[1, 2], [5, 6]]), ([[2, 3], [6, 7]], [[3, 0], [7, 4]])]
    (by rfl) ([[0, 1], [4, 5]], [[1, 2], [5, 6]]) (by simp) 0 0
    (by decide) (by decide)

/-- C4: for a corpus of length `L` and `N, M ≥ 1` with `N*M ≤ L`,
`get_batches` (modelled from the spec, the notebook's body being a TODO
stub) yields exactly `⌊L/(N*M)⌋` batches, each an `N × M` matrix pair. -/
theorem get_batches_count_and_shape (arr : List Nat) (N M : Nat)
    (hN : 1 ≤ N) (hM : 1 ≤ M) (hLen : N * M ≤ arr.length) :
    ∃ bs, get_batches arr N M = .ok bs ∧
      bs.length = arr.length / (N * M) ∧
      ∀ b ∈ bs, b.1.length = N ∧ b.2.length = N ∧
        (∀ row ∈ b.1, row.length = M) ∧ (∀ row ∈ b.2, row.length = M) := by
  have hpos : 0 < N * M := Nat.mul_pos (by omega) (by omega)
  have hnb : arr.length / (N * M) ≠ 0 := by
    have := (Nat.one_le_div_iff hpos).mpr hLen
    omega
  cases hgb : get_batches arr N M with
  | error e =>
    exfalso
    simp only [get_batches] at hgb
    rw [if_neg hnb] at hgb
    exact absurd hgb (by simp)
  | ok bs =>
    refine ⟨bs, rfl, ?_, ?_⟩
    all_goals
      simp only [get_batches] at hgb
      rw [if_neg hnb] at hgb
      injection hgb with hbs
      subst hbs
    · simp
    · intro b hb
      obtain ⟨bi, hbi, rfl⟩ := List.mem_map.mp hb
      rw [List.mem_range] at hbi
      refine ⟨by simp, by simp, ?_, ?_⟩
      · intro row hrow
        simp only [List.map_map] at hrow
        obtain ⟨i, hi, rfl⟩ := List.mem_map.mp hrow
        rw [List.mem_range] at hi
        simp only [Function.comp]
        exact gb_window_length _ M bi _ (gb_row_length arr N M i hi) hbi
      · intro row hrow
        simp only [List.map_map] at hrow
        obtain ⟨i, hi, rfl⟩ := List.mem_map.mp hrow
        rw [List.mem_range] at hi
        simp only [Function.comp]
        have hxr : (((((arr.take ((arr.length / (N * M)) * (N * M))).drop
            (i * ((arr.length / (N * M)) * M))).take ((arr.length / (N * M)) * M)).drop
              (bi * M)).take M).length = M :=
          gb_window_length _ M bi _ (gb_row_length arr N M i hi) hbi
        rw [List.length_append, List.length_drop, hxr]
        simp
        omega

/-- C4 witness: corpus `[0, …, 7]`, `N = 2`, `M = 2`. -/
theorem get_batches_count_and_shape_witness :
    ∃ bs, get_batches (List.range 8) 2 2 = .ok bs ∧
      bs.length = (List.range 8).length / (2 * 2) ∧
      ∀ b ∈ bs, b.1.length = 2 ∧ b.2.length = 2 ∧
        (∀ row ∈ b.1, row.length = 2) ∧ (∀ row ∈ b.2, row.length = 2) :=
  get_batches_count_and_shape (List.range 8) 2 2 (by decide) (by decide) (by decide)

/-- C7: for a corpus shorter than one full batch
(`⌊L/(N*M)⌋ = 0` with `N, M ≥ 1`), `get_batches` (modelled from the
spec, the notebook's body being a TODO stub) fails with
`InsufficientDataError` and yields no batches. -/
theorem get_batches_insufficient_data (arr : List Nat) (N M : Nat)
    (hN : 1 ≤ N) (hM : 1 ≤ M) (hdiv : arr.length / (N * M) = 0) :
    get_batches arr N M = .error PyError.insufficientData := by
  simp [get_batches, hdiv]

/-- C7 witness: three symbols cannot fill a `2 × 2` batch. -/
theorem get_batches_insufficient_data_witness :
    get_batches [0, 1, 2] 2 2 = .error PyError.insufficientData :=
  get_batches_insufficient_data [0, 1, 2] 2 2 (by decide) (by decide) (by decide)

end CharRNN
